import Mathlib

/-!
# Verification of the `benas_filesync` synchronization engine

A shallow embedding of `src/benas_filesync/filesyncmanager.py`.  Directories
are modelled as association lists from filenames to entries; the per-file
loop body of `FileSyncManager.sync` becomes `syncStep`, the loop becomes
`syncLoop`, and the outer exception wrapper becomes `sync`.  The SHA-256
digest function is a parameter of the configuration (the code treats digest
equality as the content-comparison authority), and `shutil.copy2` failures
are injected through a fault oracle `copyFails` so that the error-handling
paths of the Python code are reachable in the model.
-/

namespace FileSync

/-- A filesystem entry: whether it is a regular file (`os.path.isfile`),
its byte content, and its last-modification time in seconds. -/
structure Entry where
  isFile : Bool
  content : List Nat
  mtime : Int
deriving DecidableEq

/-- A directory: an association list from filename to entry, in
directory-listing order. -/
abbrev Dir := List (String × Entry)

/-- Lookup of a filename in a directory (first match). -/
def alookup (m : Dir) (k : String) : Option Entry :=
  match m with
  | [] => none
  | p :: r => if p.1 = k then some p.2 else alookup r k

/-- Remove every entry with the given filename (`shutil.move` away). -/
def aerase (m : Dir) (k : String) : Dir :=
  m.filter (fun p => p.1 != k)

/-- Write an entry at a filename, replacing any previous one
(`shutil.copy2` / `shutil.move` into the directory). -/
def aset (m : Dir) (k : String) (v : Entry) : Dir :=
  (k, v) :: aerase m k

/-- The Python exception classes appearing in `filesyncmanager.py`. -/
inductive ErrKind where
  | runtimeError
  | valueError
  | fileNotFoundError
  | osError
deriving DecidableEq

/-- A raised Python exception: its class and its message. -/
structure PyError where
  kind : ErrKind
  msg : String
deriving DecidableEq

/-- `raise RuntimeError(s)`. -/
def runtimeErr (s : String) : PyError := ⟨.runtimeError, s⟩

/-- The filesystem state seen by one `FileSyncManager`: the three
configured directories, plus whether the source path is a directory
(`os.path.isdir(self.source)`). -/
structure FSState where
  sourceIsDir : Bool
  source : Dir
  backup : Dir
  versioning : Dir
deriving DecidableEq

/-- Python's `str.endswith`: `suf` is a suffix of `s` (character-wise). -/
def strEndsWith (s suf : String) : Bool := List.isSuffixOf suf.data s.data

/-- `FileSyncManager.get_txt_files`: names of entries of the source
directory that end with `.txt` and are regular files; a `ValueError`
wrapped into a `RuntimeError` when the source path is not a directory. -/
def get_txt_files (st : FSState) : Except PyError (List String) :=
  if st.sourceIsDir then
    .ok ((st.source.filter (fun p => strEndsWith p.1 ".txt" && p.2.isFile)).map Prod.fst)
  else
    .error (runtimeErr "Error reading .txt files from source: Provided source path is not a directory")

/-- `FileSyncManager.hash_file` on the file `name` of directory `dir`,
with `H` the SHA-256 digest function: `ValueError` (wrapped into
`RuntimeError` by the method's own handler) when the path is not a
regular file, otherwise the digest of the full content. -/
def hash_file (H : List Nat → String) (dir : Dir) (name : String) : Except PyError String :=
  match alookup dir name with
  | some e =>
    if e.isFile then .ok (H e.content)
    else .error (runtimeErr ("Error hashing file " ++ name ++ ": Path is not a file: " ++ name))
  | none => .error (runtimeErr ("Error hashing file " ++ name ++ ": Path is not a file: " ++ name))

/-- `FileSyncManager.should_sync` for the file `name`, comparing the
source directory's entry against the backup directory's: `true` when no
backup exists, otherwise `true` iff the two digests differ.  Every
failure is wrapped by the method's handler into a `RuntimeError`
mentioning both paths. -/
def should_sync (H : List Nat → String) (src bak : Dir) (name : String) : Except PyError Bool :=
  match alookup src name with
  | none => .error (runtimeErr ("Error comparing files: " ++ name ++ " Details: Source file not found: " ++ name))
  | some se =>
    if se.isFile then
      match alookup bak name with
      | none => .ok true
      | some _ =>
        match hash_file H src name with
        | .error e => .error (runtimeErr ("Error comparing files: " ++ name ++ " Details: " ++ e.msg))
        | .ok h1 =>
          match hash_file H bak name with
          | .error e => .error (runtimeErr ("Error comparing files: " ++ name ++ " Details: " ++ e.msg))
          | .ok h2 => .ok (h1 != h2)
    else .error (runtimeErr ("Error comparing files: " ++ name ++ " Details: Source path is not a file: " ++ name))

/-- A wall-clock timestamp as produced by `datetime.now()`, at second
resolution, for `strftime`. -/
structure Stamp where
  year : Nat
  month : Nat
  day : Nat
  hour : Nat
  minute : Nat
  second : Nat
deriving DecidableEq

/-- Field ranges of a real `datetime` value (years restricted to four
digits, as every `datetime.now()` result is). -/
def validStamp (t : Stamp) : Prop :=
  1000 ≤ t.year ∧ t.year ≤ 9999 ∧ 1 ≤ t.month ∧ t.month ≤ 12 ∧
    1 ≤ t.day ∧ t.day ≤ 31 ∧ t.hour ≤ 23 ∧ t.minute ≤ 59 ∧ t.second ≤ 59

instance (t : Stamp) : Decidable (validStamp t) := by
  unfold validStamp; infer_instance

/-- Two-digit zero-padded decimal rendering (`%m`, `%d`, `%H`, `%M`, `%S`). -/
def pad2 (n : Nat) : String :=
  ⟨[Nat.digitChar (n / 10 % 10), Nat.digitChar (n % 10)]⟩

/-- Four-digit zero-padded decimal rendering (`%Y` for four-digit years). -/
def pad4 (n : Nat) : String :=
  ⟨[Nat.digitChar (n / 1000 % 10), Nat.digitChar (n / 100 % 10),
    Nat.digitChar (n / 10 % 10), Nat.digitChar (n % 10)]⟩

/-- `datetime.strftime('%Y%m%dT%H%M%S')`. -/
def strftimeYmdTHMS (t : Stamp) : String :=
  pad4 t.year ++ pad2 t.month ++ pad2 t.day ++ "T" ++
    pad2 t.hour ++ pad2 t.minute ++ pad2 t.second

/-- Index of the last `'.'` in a character list, if any. -/
def lastDotIdx : List Char → Option Nat
  | [] => none
  | c :: cs =>
    match lastDotIdx cs with
    | some i => some (i + 1)
    | none => if c = '.' then some 0 else none

/-- `os.path.splitext(filename)[0]` for a bare filename: cut at the last
dot, except that a name whose characters before the last dot are all dots
(a leading-dot hidden name such as `.txt`) is returned whole. -/
def splitextStem (s : String) : String :=
  match lastDotIdx s.data with
  | none => s
  | some i => if (s.data.take i).any (fun c => c != '.') then ⟨s.data.take i⟩ else s

/-- The versioned filename built by the versioning branch of `sync`:
`f"{os.path.splitext(filename)[0]}_{timestamp}.txt"`. -/
def versionedName (t : Stamp) (filename : String) : String :=
  splitextStem filename ++ "_" ++ strftimeYmdTHMS t ++ ".txt"

/-- The run configuration: the constructor flags of `FileSyncManager`,
the wall clock at the moment of the run (`datetime.now()`, as an epoch
second count and as a broken-down stamp), the digest function, and the
fault oracle telling which filenames' `shutil.copy2` calls fail. -/
structure Config where
  dryRun : Bool
  modifiedWithin : Option Int
  now : Int
  stamp : Stamp
  hash : List Nat → String
  copyFails : String → Bool

/-- Python truthiness of `self.modified_within` (an `Optional[int]`):
`None` and `0` are falsy. -/
def intTruthy : Option Int → Bool
  | none => false
  | some n => n != 0

/-- `logger.info(f"Copying new file: {filename}")`. -/
def copyNewMsg (f : String) : String := "Copying new file: " ++ f

/-- `logger.info(f"Versioning: {filename} → {versioned_name}")`. -/
def versioningMsg (f v : String) : String := "Versioning: " ++ f ++ " → " ++ v

/-- `logger.info(f"Skipped (unchanged): {filename}")`. -/
def skipMsg (f : String) : String := "Skipped (unchanged): " ++ f

/-- The copy/version/skip part of the loop body of `FileSyncManager.sync`
(after the recency filter): returns the new state, the log lines emitted,
and the raised exception if the body aborted.  In the versioning branch
the move into the versioning directory happens before the copy, so a
failing copy leaves the moved-away state behind. -/
def syncAction (cfg : Config) (st : FSState) (filename : String) :
    FSState × List String × Option PyError :=
  match alookup st.backup filename with
  | none =>
    let lg := copyNewMsg filename
    if cfg.dryRun then (st, [lg], none)
    else if cfg.copyFails filename then
      (st, [lg], some (runtimeErr ("Error copying file " ++ filename ++ " to backup")))
    else
      match alookup st.source filename with
      | some se => ({ st with backup := aset st.backup filename se }, [lg], none)
      | none => (st, [lg], some (runtimeErr ("Error copying file " ++ filename ++ " to backup")))
  | some be =>
    match should_sync cfg.hash st.source st.backup filename with
    | .error e => (st, [], some e)
    | .ok true =>
      let vn := versionedName cfg.stamp filename
      let lg := versioningMsg filename vn
      if cfg.dryRun then (st, [lg], none)
      else
        let st1 : FSState := { st with backup := aerase st.backup filename,
                                       versioning := aset st.versioning vn be }
        if cfg.copyFails filename then
          (st1, [lg], some (runtimeErr ("Error during versioning of " ++ filename)))
        else
          match alookup st1.source filename with
          | some se => ({ st1 with backup := aset st1.backup filename se }, [lg], none)
          | none => (st1, [lg], some (runtimeErr ("Error during versioning of " ++ filename)))
    | .ok false => (st, [skipMsg filename], none)

/-- One iteration of the loop of `FileSyncManager.sync`: the recency
filter (`if self.modified_within:` — Python truthiness, so a window of
`0` disables it) followed by `syncAction`.  A file whose elapsed minutes
exceed the window is skipped with no log line. -/
def syncStep (cfg : Config) (st : FSState) (filename : String) :
    FSState × List String × Option PyError :=
  if intTruthy cfg.modifiedWithin then
    match alookup st.source filename with
    | none => (st, [], some (runtimeErr ("Error getting modification time for " ++ filename)))
    | some se =>
      if cfg.now - se.mtime > 60 * cfg.modifiedWithin.getD 0 then (st, [], none)
      else syncAction cfg st filename
  else syncAction cfg st filename

/-- The `for filename in self.get_txt_files():` loop: files are processed
in listing order, log lines accumulate, and the first raised exception
aborts the remaining files while keeping the state reached so far. -/
def syncLoop (cfg : Config) : List String → FSState → List String →
    FSState × List String × Option PyError
  | [], st, logs => (st, logs, none)
  | f :: fs, st, logs =>
    match syncStep cfg st f with
    | (st1, ls, some e) => (st1, logs ++ ls, some e)
    | (st1, ls, none) => syncLoop cfg fs st1 (logs ++ ls)

/-- The outer `except Exception` of `sync`:
`raise RuntimeError(f"Synchronization failed: {e}")`. -/
def wrapSync (e : PyError) : PyError :=
  ⟨.runtimeError, "Synchronization failed: " ++ e.msg⟩

/-- `FileSyncManager.sync`: list the eligible files and run the loop;
any exception raised inside is re-raised as a `RuntimeError` with the
`Synchronization failed: ` prefix. -/
def sync (cfg : Config) (st : FSState) : FSState × List String × Option PyError :=
  match get_txt_files st with
  | .error e => (st, [], some (wrapSync e))
  | .ok files =>
    match syncLoop cfg files st [] with
    | (st1, logs, some e) => (st1, logs, some (wrapSync e))
    | (st1, logs, none) => (st1, logs, none)

/-! ## Basic properties of the directory model -/

theorem alookup_aerase_ne (m : Dir) (k g : String) (h : g ≠ k) :
    alookup (aerase m k) g = alookup m g := by
  induction m with
  | nil => rfl
  | cons p r ih =>
    rcases p with ⟨n, e⟩
    by_cases hp : n = k
    · subst hp
      have hng : ¬ (n = g) := fun hh => h (hh ▸ rfl)
      simp [aerase, List.filter_cons, alookup, hng] at ih ⊢
      exact ih
    · simp [aerase, List.filter_cons, hp, alookup] at ih ⊢
      by_cases hg : n = g
      · simp [hg]
      · simp [hg, ih]

theorem alookup_aerase_self (m : Dir) (k : String) :
    alookup (aerase m k) k = none := by
  induction m with
  | nil => rfl
  | cons p r ih =>
    by_cases hp : p.1 = k
    · simp [aerase, List.filter_cons, hp] at ih ⊢; exact ih
    · simp [aerase, List.filter_cons, hp, alookup] at ih ⊢; simp [hp, ih]

theorem alookup_aset_self (m : Dir) (k : String) (v : Entry) :
    alookup (aset m k v) k = some v := by
  simp [aset, alookup]

theorem alookup_aset_ne (m : Dir) (k g : String) (v : Entry) (h : g ≠ k) :
    alookup (aset m k v) g = alookup m g := by
  have hk : ¬ (k = g) := fun hh => h hh.symm
  simp [aset, alookup, hk, alookup_aerase_ne m k g h]

theorem mem_of_alookup {m : Dir} {k : String} {v : Entry} (h : alookup m k = some v) :
    (k, v) ∈ m := by
  induction m with
  | nil => simp [alookup] at h
  | cons p r ih =>
    by_cases hp : p.1 = k
    · simp [alookup, hp] at h
      have hpv : p = (k, v) := by
        rcases p with ⟨n, e⟩
        simp only at hp h
        simp [hp, h]
      rw [hpv]
      exact List.mem_cons_self _ _
    · simp [alookup, hp] at h
      exact List.mem_cons_of_mem p (ih h)

theorem alookup_of_mem_nodup {m : Dir} {k : String} {v : Entry}
    (hnd : (m.map Prod.fst).Nodup) (hm : (k, v) ∈ m) : alookup m k = some v := by
  induction m with
  | nil => simp at hm
  | cons p r ih =>
    simp only [List.map_cons, List.nodup_cons] at hnd
    rcases List.mem_cons.mp hm with h | h
    · subst h; simp [alookup]
    · have hk : p.1 ≠ k := by
        intro he
        exact hnd.1 (he ▸ (List.mem_map.mpr ⟨(k, v), h, rfl⟩))
      simp [alookup, hk]
      exact ih hnd.2 h

/-! ## Frame properties of one loop iteration -/

theorem syncAction_src (cfg : Config) (st : FSState) (f : String) :
    (syncAction cfg st f).1.source = st.source ∧
      (syncAction cfg st f).1.sourceIsDir = st.sourceIsDir := by
  unfold syncAction
  split
  · dsimp only
    split
    · exact ⟨rfl, rfl⟩
    · split
      · exact ⟨rfl, rfl⟩
      · split <;> exact ⟨rfl, rfl⟩
  · split
    · exact ⟨rfl, rfl⟩
    · dsimp only
      split
      · exact ⟨rfl, rfl⟩
      · split
        · exact ⟨rfl, rfl⟩
        · split <;> exact ⟨rfl, rfl⟩
    · exact ⟨rfl, rfl⟩

theorem syncAction_backup_ne (cfg : Config) (st : FSState) (f g : String) (hg : g ≠ f) :
    alookup (syncAction cfg st f).1.backup g = alookup st.backup g := by
  unfold syncAction
  split
  · dsimp only
    split
    · rfl
    · split
      · rfl
      · split
        · exact alookup_aset_ne _ _ _ _ hg
        · rfl
  · split
    · rfl
    · dsimp only
      split
      · rfl
      · split
        · exact alookup_aerase_ne _ _ _ hg
        · split
          · dsimp only
            rw [alookup_aset_ne _ _ _ _ hg]
            exact alookup_aerase_ne _ _ _ hg
          · exact alookup_aerase_ne _ _ _ hg
    · rfl

theorem syncAction_versioning_ne (cfg : Config) (st : FSState) (f : String) (x : String)
    (hx : x ≠ versionedName cfg.stamp f) :
    alookup (syncAction cfg st f).1.versioning x = alookup st.versioning x := by
  unfold syncAction
  split
  · dsimp only
    split
    · rfl
    · split
      · rfl
      · split <;> rfl
  · split
    · rfl
    · dsimp only
      split
      · rfl
      · split
        · exact alookup_aset_ne _ _ _ _ hx
        · split <;> exact alookup_aset_ne _ _ _ _ hx
    · rfl

theorem syncStep_src (cfg : Config) (st : FSState) (f : String) :
    (syncStep cfg st f).1.source = st.source ∧
      (syncStep cfg st f).1.sourceIsDir = st.sourceIsDir := by
  unfold syncStep
  split
  · split
    · exact ⟨rfl, rfl⟩
    · split
      · exact ⟨rfl, rfl⟩
      · exact syncAction_src cfg st f
  · exact syncAction_src cfg st f

theorem syncStep_backup_ne (cfg : Config) (st : FSState) (f g : String) (hg : g ≠ f) :
    alookup (syncStep cfg st f).1.backup g = alookup st.backup g := by
  unfold syncStep
  split
  · split
    · rfl
    · split
      · rfl
      · exact syncAction_backup_ne cfg st f g hg
  · exact syncAction_backup_ne cfg st f g hg

theorem syncStep_versioning_ne (cfg : Config) (st : FSState) (f : String) (x : String)
    (hx : x ≠ versionedName cfg.stamp f) :
    alookup (syncStep cfg st f).1.versioning x = alookup st.versioning x := by
  unfold syncStep
  split
  · split
    · rfl
    · split
      · rfl
      · exact syncAction_versioning_ne cfg st f x hx
  · exact syncAction_versioning_ne cfg st f x hx

/-! ## Properties of the per-file loop -/

theorem syncLoop_append_ok (cfg : Config) (l₁ l₂ : List String) (st st1 : FSState)
    (logs lg : List String) (h : syncLoop cfg l₁ st logs = (st1, lg, none)) :
    syncLoop cfg (l₁ ++ l₂) st logs = syncLoop cfg l₂ st1 lg := by
  induction l₁ generalizing st logs with
  | nil =>
    simp only [syncLoop, Prod.mk.injEq, and_true] at h
    rw [List.nil_append, h.1, h.2]
  | cons f fs ih =>
    rcases hstep : syncStep cfg st f with ⟨stm, ls, e⟩
    cases e with
    | some err =>
      simp only [syncLoop, hstep] at h
      exact absurd h (by simp)
    | none =>
      simp only [List.cons_append, syncLoop, hstep]
      simp only [syncLoop, hstep] at h
      exact ih stm (logs ++ ls) h

theorem syncLoop_append_err (cfg : Config) (l₁ l₂ : List String) (st st1 : FSState)
    (logs lg : List String) (e : PyError) (h : syncLoop cfg l₁ st logs = (st1, lg, some e)) :
    syncLoop cfg (l₁ ++ l₂) st logs = (st1, lg, some e) := by
  induction l₁ generalizing st logs with
  | nil => simp [syncLoop] at h
  | cons f fs ih =>
    rcases hstep : syncStep cfg st f with ⟨stm, ls, e'⟩
    cases e' with
    | some err =>
      simp only [syncLoop, hstep] at h
      simp only [List.cons_append, syncLoop, hstep]
      exact h
    | none =>
      simp only [syncLoop, hstep] at h
      simp only [List.cons_append, syncLoop, hstep]
      exact ih stm (logs ++ ls) h

theorem syncLoop_src (cfg : Config) (fs : List String) (st : FSState) (logs : List String) :
    (syncLoop cfg fs st logs).1.source = st.source ∧
      (syncLoop cfg fs st logs).1.sourceIsDir = st.sourceIsDir := by
  induction fs generalizing st logs with
  | nil => exact ⟨rfl, rfl⟩
  | cons f fs ih =>
    rcases hstep : syncStep cfg st f with ⟨stm, ls, e⟩
    have hsrc := syncStep_src cfg st f
    rw [hstep] at hsrc
    cases e with
    | some err => simp only [syncLoop, hstep]; exact hsrc
    | none =>
      simp only [syncLoop, hstep]
      exact ⟨(ih stm (logs ++ ls)).1.trans hsrc.1, (ih stm (logs ++ ls)).2.trans hsrc.2⟩

theorem syncLoop_backup_ne (cfg : Config) (g : String) (fs : List String) (st : FSState)
    (logs : List String) (hg : g ∉ fs) :
    alookup (syncLoop cfg fs st logs).1.backup g = alookup st.backup g := by
  induction fs generalizing st logs with
  | nil => rfl
  | cons f fs ih =>
    have hgf : g ≠ f := fun h => hg (h ▸ List.mem_cons_self f fs)
    have hgfs : g ∉ fs := fun h => hg (List.mem_cons_of_mem f h)
    rcases hstep : syncStep cfg st f with ⟨stm, ls, e⟩
    have hb := syncStep_backup_ne cfg st f g hgf
    rw [hstep] at hb
    cases e with
    | some err => simp only [syncLoop, hstep]; exact hb
    | none =>
      simp only [syncLoop, hstep]
      exact (ih stm (logs ++ ls) hgfs).trans hb

theorem syncLoop_versioning_ne (cfg : Config) (x : String) (fs : List String) (st : FSState)
    (logs : List String) (hx : ∀ f ∈ fs, x ≠ versionedName cfg.stamp f) :
    alookup (syncLoop cfg fs st logs).1.versioning x = alookup st.versioning x := by
  induction fs generalizing st logs with
  | nil => rfl
  | cons f fs ih =>
    rcases hstep : syncStep cfg st f with ⟨stm, ls, e⟩
    have hv := syncStep_versioning_ne cfg st f x (hx f (List.mem_cons_self f fs))
    rw [hstep] at hv
    cases e with
    | some err => simp only [syncLoop, hstep]; exact hv
    | none =>
      simp only [syncLoop, hstep]
      exact (ih stm (logs ++ ls) (fun f' hf' => hx f' (List.mem_cons_of_mem f hf'))).trans hv

/-! ## Properties of the eligible-file listing -/

theorem txtList_of_isDir {st : FSState} (h : st.sourceIsDir = true) :
    get_txt_files st =
      .ok ((st.source.filter (fun p => strEndsWith p.1 ".txt" && p.2.isFile)).map Prod.fst) := by
  simp [get_txt_files, h]

theorem mem_txtList {st : FSState} {L : List String} (h : get_txt_files st = .ok L)
    (f : String) :
    f ∈ L ↔ ∃ e, (f, e) ∈ st.source ∧ strEndsWith f ".txt" = true ∧ e.isFile = true := by
  by_cases hd : st.sourceIsDir = true
  · rw [txtList_of_isDir hd] at h
    obtain rfl : _ = L := Except.ok.inj h
    constructor
    · intro hf
      obtain ⟨⟨n, e⟩, hp, hfst⟩ := List.mem_map.mp hf
      obtain ⟨hmem, hprop⟩ := List.mem_filter.mp hp
      simp only at hfst
      subst hfst
      simp only [Bool.and_eq_true] at hprop
      exact ⟨e, hmem, hprop.1, hprop.2⟩
    · rintro ⟨e, hmem, hsuf, hfile⟩
      exact List.mem_map.mpr ⟨(f, e),
        List.mem_filter.mpr ⟨hmem, by simp [hsuf, hfile]⟩, rfl⟩
  · simp [get_txt_files, hd] at h

theorem txtList_endsWith {st : FSState} {L : List String} (h : get_txt_files st = .ok L)
    {f : String} (hf : f ∈ L) : strEndsWith f ".txt" = true :=
  ((mem_txtList h f).mp hf).choose_spec.2.1

theorem txtList_nodup {st : FSState} {L : List String} (h : get_txt_files st = .ok L)
    (hnd : (st.source.map Prod.fst).Nodup) : L.Nodup := by
  by_cases hd : st.sourceIsDir = true
  · rw [txtList_of_isDir hd] at h
    obtain rfl : _ = L := Except.ok.inj h
    exact ((List.filter_sublist st.source).map Prod.fst).nodup hnd
  · simp [get_txt_files, hd] at h

theorem alookup_of_mem_txtList {st : FSState} {L : List String}
    (h : get_txt_files st = .ok L) (hnd : (st.source.map Prod.fst).Nodup)
    {f : String} (hf : f ∈ L) :
    ∃ e, alookup st.source f = some e ∧ e.isFile = true ∧ strEndsWith f ".txt" = true := by
  obtain ⟨e, hmem, hsuf, hfile⟩ := (mem_txtList h f).mp hf
  exact ⟨e, alookup_of_mem_nodup hnd hmem, hfile, hsuf⟩

/-! ## Relating `sync` to the loop -/

theorem sync_of_loop (cfg : Config) (st : FSState) {files : List String}
    (h : get_txt_files st = .ok files) :
    sync cfg st = ((syncLoop cfg files st []).1, (syncLoop cfg files st []).2.1,
      (syncLoop cfg files st []).2.2.map wrapSync) := by
  rcases hl : syncLoop cfg files st [] with ⟨st1, logs, e⟩
  cases e with
  | some err => simp only [sync, h, hl, Option.map_some']
  | none => simp only [sync, h, hl, Option.map_none']

theorem sync_ok_loop (cfg : Config) (st st' : FSState) (logs : List String)
    {files : List String} (h : get_txt_files st = .ok files)
    (hs : sync cfg st = (st', logs, none)) :
    syncLoop cfg files st [] = (st', logs, none) := by
  rcases hl : syncLoop cfg files st [] with ⟨st1, lg, e⟩
  rw [sync_of_loop cfg st h, hl] at hs
  cases e with
  | some err => simp [Prod.mk.injEq] at hs
  | none => simpa using hs

/-! ## Behaviour of one loop iteration, branch by branch -/

/-- The recency filter is active (`if self.modified_within:`, Python
truthiness) and the source entry's elapsed time exceeds the window. -/
def recencySkips (cfg : Config) (e : Entry) : Prop :=
  intTruthy cfg.modifiedWithin = true ∧
    cfg.now - e.mtime > 60 * cfg.modifiedWithin.getD 0

instance (cfg : Config) (e : Entry) : Decidable (recencySkips cfg e) := by
  unfold recencySkips; infer_instance

theorem syncStep_recency_skip (cfg : Config) (st : FSState) (f : String) (se : Entry)
    (hse : alookup st.source f = some se) (hskip : recencySkips cfg se) :
    syncStep cfg st f = (st, [], none) := by
  unfold syncStep
  rw [hskip.1, if_pos rfl, hse]
  simp only [if_pos hskip.2]

theorem syncStep_recency_pass (cfg : Config) (st : FSState) (f : String) (se : Entry)
    (hse : alookup st.source f = some se) (hpass : ¬ recencySkips cfg se) :
    syncStep cfg st f = syncAction cfg st f := by
  unfold syncStep
  by_cases ht : intTruthy cfg.modifiedWithin = true
  · have hlt : ¬ (cfg.now - se.mtime > 60 * cfg.modifiedWithin.getD 0) :=
      fun hgt => hpass ⟨ht, hgt⟩
    rw [ht, if_pos rfl, hse]
    simp only [if_neg hlt]
  · rw [if_neg ht]

theorem should_sync_no_backup (H : List Nat → String) (src bak : Dir) (f : String)
    (se : Entry) (hse : alookup src f = some se) (hf : se.isFile = true)
    (hb : alookup bak f = none) : should_sync H src bak f = .ok true := by
  unfold should_sync
  rw [hse]
  simp [hf, hb]

theorem should_sync_compare (H : List Nat → String) (src bak : Dir) (f : String)
    (se be : Entry) (hse : alookup src f = some se) (hf : se.isFile = true)
    (hb : alookup bak f = some be) (hbf : be.isFile = true) :
    should_sync H src bak f = .ok (H se.content != H be.content) := by
  unfold should_sync hash_file
  rw [hse]
  simp [hf, hb, hbf]

theorem syncAction_copy (cfg : Config) (st : FSState) (f : String) (se : Entry)
    (hse : alookup st.source f = some se) (hb : alookup st.backup f = none)
    (hdry : cfg.dryRun = false) (hcf : cfg.copyFails f = false) :
    syncAction cfg st f =
      ({ st with backup := aset st.backup f se }, [copyNewMsg f], none) := by
  unfold syncAction
  rw [hb]
  simp only [hdry, Bool.false_eq_true, if_neg, hcf, hse, ite_false]

theorem syncAction_copy_dry (cfg : Config) (st : FSState) (f : String)
    (hb : alookup st.backup f = none) (hdry : cfg.dryRun = true) :
    syncAction cfg st f = (st, [copyNewMsg f], none) := by
  unfold syncAction
  rw [hb]
  simp only [hdry, ite_true]

theorem syncAction_version (cfg : Config) (st : FSState) (f : String) (se be : Entry)
    (hse : alookup st.source f = some se) (hsf : se.isFile = true)
    (hb : alookup st.backup f = some be) (hbf : be.isFile = true)
    (hdiff : cfg.hash se.content ≠ cfg.hash be.content)
    (hdry : cfg.dryRun = false) (hcf : cfg.copyFails f = false) :
    syncAction cfg st f =
      ({ st with backup := aset (aerase st.backup f) f se,
                 versioning := aset st.versioning (versionedName cfg.stamp f) be },
        [versioningMsg f (versionedName cfg.stamp f)], none) := by
  unfold syncAction
  rw [hb, should_sync_compare cfg.hash st.source st.backup f se be hse hsf hb hbf]
  have hne : (cfg.hash se.content != cfg.hash be.content) = true := bne_iff_ne.mpr hdiff
  rw [hne]
  simp only [hdry, Bool.false_eq_true, if_neg, hcf, ite_false, hse]

theorem syncAction_version_dry (cfg : Config) (st : FSState) (f : String) (se be : Entry)
    (hse : alookup st.source f = some se) (hsf : se.isFile = true)
    (hb : alookup st.backup f = some be) (hbf : be.isFile = true)
    (hdiff : cfg.hash se.content ≠ cfg.hash be.content) (hdry : cfg.dryRun = true) :
    syncAction cfg st f = (st, [versioningMsg f (versionedName cfg.stamp f)], none) := by
  unfold syncAction
  rw [hb, should_sync_compare cfg.hash st.source st.backup f se be hse hsf hb hbf]
  have hne : (cfg.hash se.content != cfg.hash be.content) = true := bne_iff_ne.mpr hdiff
  rw [hne]
  simp only [hdry, ite_true]

theorem syncAction_version_fail (cfg : Config) (st : FSState) (f : String) (se be : Entry)
    (hse : alookup st.source f = some se) (hsf : se.isFile = true)
    (hb : alookup st.backup f = some be) (hbf : be.isFile = true)
    (hdiff : cfg.hash se.content ≠ cfg.hash be.content)
    (hdry : cfg.dryRun = false) (hcf : cfg.copyFails f = true) :
    syncAction cfg st f =
      ({ st with backup := aerase st.backup f,
                 versioning := aset st.versioning (versionedName cfg.stamp f) be },
        [versioningMsg f (versionedName cfg.stamp f)],
        some (runtimeErr ("Error during versioning of " ++ f))) := by
  unfold syncAction
  rw [hb, should_sync_compare cfg.hash st.source st.backup f se be hse hsf hb hbf]
  have hne : (cfg.hash se.content != cfg.hash be.content) = true := bne_iff_ne.mpr hdiff
  rw [hne]
  simp [hdry, hcf]

theorem syncAction_skip (cfg : Config) (st : FSState) (f : String) (se be : Entry)
    (hse : alookup st.source f = some se) (hsf : se.isFile = true)
    (hb : alookup st.backup f = some be) (hbf : be.isFile = true)
    (heq : cfg.hash se.content = cfg.hash be.content) :
    syncAction cfg st f = (st, [skipMsg f], none) := by
  unfold syncAction
  rw [hb, should_sync_compare cfg.hash st.source st.backup f se be hse hsf hb hbf]
  have hne : (cfg.hash se.content != cfg.hash be.content) = false := by
    simp [bne_iff_ne, heq]
  rw [hne]

theorem syncAction_copy_fail (cfg : Config) (st : FSState) (f : String)
    (hb : alookup st.backup f = none) (hdry : cfg.dryRun = false)
    (hcf : cfg.copyFails f = true) :
    syncAction cfg st f =
      (st, [copyNewMsg f], some (runtimeErr ("Error copying file " ++ f ++ " to backup"))) := by
  unfold syncAction
  rw [hb]
  simp [hdry, hcf]

theorem syncAction_ss_error (cfg : Config) (st : FSState) (f : String) (be : Entry)
    (e : PyError) (hb : alookup st.backup f = some be)
    (hss : should_sync cfg.hash st.source st.backup f = .error e) :
    syncAction cfg st f = (st, [], some e) := by
  unfold syncAction
  rw [hb, hss]

theorem should_sync_src_notfile (H : List Nat → String) (src bak : Dir) (f : String)
    (se : Entry) (hse : alookup src f = some se) (hsf : se.isFile = false) :
    should_sync H src bak f =
      .error (runtimeErr ("Error comparing files: " ++ f ++ " Details: Source path is not a file: " ++ f)) := by
  unfold should_sync
  rw [hse]
  simp [hsf]

theorem should_sync_bak_notfile (H : List Nat → String) (src bak : Dir) (f : String)
    (se be : Entry) (hse : alookup src f = some se) (hsf : se.isFile = true)
    (hb : alookup bak f = some be) (hbf : be.isFile = false) :
    should_sync H src bak f =
      .error (runtimeErr ("Error comparing files: " ++ f ++ " Details: " ++
        ("Error hashing file " ++ f ++ ": Path is not a file: " ++ f))) := by
  unfold should_sync hash_file
  rw [hse]
  simp [hsf, hb, hbf, runtimeErr]

theorem should_sync_backup_congr (H : List Nat → String) (src bak₁ bak₂ : Dir) (f : String)
    (hb : alookup bak₁ f = alookup bak₂ f) :
    should_sync H src bak₁ f = should_sync H src bak₂ f := by
  unfold should_sync hash_file
  rw [hb]

theorem should_sync_ok_true_inv (H : List Nat → String) (src bak : Dir) (f : String)
    (be : Entry) (hb : alookup bak f = some be)
    (h : should_sync H src bak f = .ok true) :
    ∃ se, alookup src f = some se ∧ se.isFile = true ∧ be.isFile = true ∧
      H se.content ≠ H be.content := by
  rcases hse : alookup src f with _ | se
  · unfold should_sync at h
    rw [hse] at h
    exact absurd h (by simp)
  · cases hsf : se.isFile with
    | false =>
      rw [should_sync_src_notfile H src bak f se hse hsf] at h
      exact absurd h (by simp)
    | true =>
      cases hbf : be.isFile with
      | false =>
        rw [should_sync_bak_notfile H src bak f se be hse hsf hb hbf] at h
        exact absurd h (by simp)
      | true =>
        rw [should_sync_compare H src bak f se be hse hsf hb hbf] at h
        exact ⟨se, rfl, hsf, rfl, bne_iff_ne.mp (Except.ok.inj h)⟩

theorem syncAction_versioning_cases (cfg : Config) (st : FSState) (f : String) :
    (syncAction cfg st f).1.versioning = st.versioning ∨
    ∃ se be, alookup st.source f = some se ∧ se.isFile = true ∧
      alookup st.backup f = some be ∧ be.isFile = true ∧
      cfg.hash se.content ≠ cfg.hash be.content ∧
      (syncAction cfg st f).1.versioning =
        aset st.versioning (versionedName cfg.stamp f) be := by
  rcases hb : alookup st.backup f with _ | be
  · left
    unfold syncAction
    rw [hb]
    dsimp only
    split
    · rfl
    · split
      · rfl
      · split <;> rfl
  · rcases hss : should_sync cfg.hash st.source st.backup f with e | b
    · left
      rw [syncAction_ss_error cfg st f be e hb hss]
    · cases b with
      | false =>
        left
        unfold syncAction
        rw [hb, hss]
      | true =>
        obtain ⟨se, hse, hsf, hbf, hdiff⟩ :=
          should_sync_ok_true_inv cfg.hash st.source st.backup f be hb hss
        cases hdry : cfg.dryRun with
        | true =>
          left
          rw [syncAction_version_dry cfg st f se be hse hsf hb hbf hdiff hdry]
        | false =>
          cases hcf : cfg.copyFails f with
          | false =>
            right
            refine ⟨se, be, hse, hsf, rfl, hbf, hdiff, ?_⟩
            rw [syncAction_version cfg st f se be hse hsf hb hbf hdiff hdry hcf]
          | true =>
            right
            refine ⟨se, be, hse, hsf, rfl, hbf, hdiff, ?_⟩
            rw [syncAction_version_fail cfg st f se be hse hsf hb hbf hdiff hdry hcf]

theorem syncStep_versioning_cases (cfg : Config) (st : FSState) (f : String) :
    (syncStep cfg st f).1.versioning = st.versioning ∨
    ∃ se be, alookup st.source f = some se ∧ se.isFile = true ∧
      alookup st.backup f = some be ∧ be.isFile = true ∧
      cfg.hash se.content ≠ cfg.hash be.content ∧
      (syncStep cfg st f).1.versioning =
        aset st.versioning (versionedName cfg.stamp f) be := by
  unfold syncStep
  split
  · split
    · left; rfl
    · split
      · left; rfl
      · exact syncAction_versioning_cases cfg st f
  · exact syncAction_versioning_cases cfg st f

theorem syncStep_dry_state (cfg : Config) (st : FSState) (f : String)
    (hdry : cfg.dryRun = true) :
    (syncStep cfg st f).1 = st := by
  unfold syncStep syncAction
  simp only [hdry, ite_true]
  repeat' split
  all_goals rfl

/-! ## Counting versioning entries by content -/

/-- How many entries of a directory hold exactly the byte content `c`. -/
def contentCount (m : Dir) (c : List Nat) : Nat :=
  m.countP (fun p => p.2.content == c)

theorem contentCount_cons (p : String × Entry) (m : Dir) (c : List Nat) :
    contentCount (p :: m) c = contentCount m c + (if p.2.content = c then 1 else 0) := by
  simp only [contentCount, List.countP_cons]
  by_cases h : p.2.content = c <;> simp [h]

theorem aerase_cons (p : String × Entry) (r : Dir) (k : String) :
    aerase (p :: r) k = if p.1 = k then aerase r k else p :: aerase r k := by
  by_cases hk : p.1 = k <;> simp [aerase, List.filter_cons, hk]

theorem contentCount_aerase_le (m : Dir) (k : String) (c : List Nat) :
    contentCount (aerase m k) c ≤ contentCount m c := by
  induction m with
  | nil => exact Nat.le_refl 0
  | cons p r ih =>
    rw [aerase_cons]
    by_cases hk : p.1 = k
    · rw [if_pos hk, contentCount_cons]
      exact Nat.le_trans ih (Nat.le_add_right _ _)
    · rw [if_neg hk, contentCount_cons, contentCount_cons]
      exact Nat.add_le_add_right ih _

theorem contentCount_aerase_eq (m : Dir) (k : String) (c : List Nat)
    (h : ∀ q ∈ m, q.2.content = c → q.1 ≠ k) :
    contentCount (aerase m k) c = contentCount m c := by
  induction m with
  | nil => rfl
  | cons p r ih =>
    have hr : ∀ q ∈ r, q.2.content = c → q.1 ≠ k :=
      fun q hq => h q (List.mem_cons_of_mem p hq)
    rw [aerase_cons]
    by_cases hk : p.1 = k
    · have hpc : p.2.content ≠ c := fun hc => h p (List.mem_cons_self p r) hc hk
      rw [if_pos hk, ih hr, contentCount_cons]
      simp [hpc]
    · rw [if_neg hk, contentCount_cons, contentCount_cons, ih hr]

theorem contentCount_aset (m : Dir) (k : String) (v : Entry) (c : List Nat) :
    contentCount (aset m k v) c =
      contentCount (aerase m k) c + (if v.content = c then 1 else 0) := by
  rw [aset, contentCount_cons]

theorem contentCount_eq_zero {m : Dir} {c : List Nat} :
    contentCount m c = 0 ↔ ∀ q ∈ m, q.2.content ≠ c := by
  simp [contentCount, List.countP_eq_zero]

/-! ## A successfully processed file ends with its content in the backup -/

theorem syncStep_ok_backup (cfg : Config) (st st' : FSState) (f : String) (ls : List String)
    (se : Entry) (hse : alookup st.source f = some se) (hsf : se.isFile = true)
    (hpass : ¬ recencySkips cfg se) (hdry : cfg.dryRun = false)
    (hcoll : ∀ be, alookup st.backup f = some be →
      cfg.hash se.content = cfg.hash be.content → se.content = be.content)
    (hstep : syncStep cfg st f = (st', ls, none)) :
    ∃ e', alookup st'.backup f = some e' ∧ e'.content = se.content := by
  rw [syncStep_recency_pass cfg st f se hse hpass] at hstep
  rcases hb : alookup st.backup f with _ | be
  · cases hcf : cfg.copyFails f with
    | false =>
      rw [syncAction_copy cfg st f se hse hb hdry hcf] at hstep
      simp only [Prod.mk.injEq, and_true] at hstep
      rw [← hstep.1]
      exact ⟨se, alookup_aset_self st.backup f se, rfl⟩
    | true =>
      rw [syncAction_copy_fail cfg st f hb hdry hcf] at hstep
      simp at hstep
  · cases hbf : be.isFile with
    | false =>
      have hss := should_sync_bak_notfile cfg.hash st.source st.backup f se be hse hsf hb hbf
      rw [syncAction_ss_error cfg st f be _ hb hss] at hstep
      simp at hstep
    | true =>
      by_cases hh : cfg.hash se.content = cfg.hash be.content
      · rw [syncAction_skip cfg st f se be hse hsf hb hbf hh] at hstep
        simp only [Prod.mk.injEq, and_true] at hstep
        rw [← hstep.1]
        exact ⟨be, hb, (hcoll be hb hh).symm⟩
      · cases hcf : cfg.copyFails f with
        | false =>
          rw [syncAction_version cfg st f se be hse hsf hb hbf hh hdry hcf] at hstep
          simp only [Prod.mk.injEq, and_true] at hstep
          rw [← hstep.1]
          exact ⟨se, alookup_aset_self (aerase st.backup f) f se, rfl⟩
        | true =>
          rw [syncAction_version_fail cfg st f se be hse hsf hb hbf hh hdry hcf] at hstep
          simp at hstep

/-! ## Dry-run never changes the state -/

theorem syncLoop_dry_state (cfg : Config) (hdry : cfg.dryRun = true) :
    ∀ fs st logs, (syncLoop cfg fs st logs).1 = st := by
  intro fs
  induction fs with
  | nil => intro st logs; rfl
  | cons f fs ih =>
    intro st logs
    rcases hstep : syncStep cfg st f with ⟨st1, ls, e⟩
    have h1 : st1 = st := by
      have h := syncStep_dry_state cfg st f hdry
      rw [hstep] at h
      exact h
    cases e with
    | some err => simp only [syncLoop, hstep]; exact h1
    | none => simp only [syncLoop, hstep]; rw [ih st1 (logs ++ ls), h1]

/-! ## Dry-run and real runs take the same branches and emit the same logs -/

theorem syncStep_dry_wet (cfg : Config) (st₀ st : FSState) (f : String)
    (hsrc : st.source = st₀.source)
    (hbak : alookup st.backup f = alookup st₀.backup f)
    (hsome : (alookup st₀.source f).isSome = true)
    (hcf : cfg.copyFails f = false) :
    (syncStep { cfg with dryRun := true } st₀ f).2 =
      (syncStep { cfg with dryRun := false } st f).2 := by
  obtain ⟨se, hse⟩ := Option.isSome_iff_exists.mp hsome
  have hse' : alookup st.source f = some se := by rw [hsrc]; exact hse
  by_cases hsk : recencySkips { cfg with dryRun := true } se
  · rw [syncStep_recency_skip { cfg with dryRun := true } st₀ f se hse hsk,
      syncStep_recency_skip { cfg with dryRun := false } st f se hse' hsk]
  · rw [syncStep_recency_pass { cfg with dryRun := true } st₀ f se hse hsk,
      syncStep_recency_pass { cfg with dryRun := false } st f se hse' hsk]
    rcases hb₀ : alookup st₀.backup f with _ | be
    · have hbn : alookup st.backup f = none := by rw [hbak, hb₀]
      rw [syncAction_copy_dry { cfg with dryRun := true } st₀ f hb₀ rfl,
        syncAction_copy { cfg with dryRun := false } st f se hse' hbn rfl hcf]
    · have hbs : alookup st.backup f = some be := by rw [hbak, hb₀]
      cases hsf : se.isFile with
      | false =>
        rw [syncAction_ss_error { cfg with dryRun := true } st₀ f be _ hb₀
            (should_sync_src_notfile _ st₀.source st₀.backup f se hse hsf),
          syncAction_ss_error { cfg with dryRun := false } st f be _ hbs
            (should_sync_src_notfile _ st.source st.backup f se hse' hsf)]
      | true =>
        cases hbf : be.isFile with
        | false =>
          rw [syncAction_ss_error { cfg with dryRun := true } st₀ f be _ hb₀
              (should_sync_bak_notfile _ st₀.source st₀.backup f se be hse hsf hb₀ hbf),
            syncAction_ss_error { cfg with dryRun := false } st f be _ hbs
              (should_sync_bak_notfile _ st.source st.backup f se be hse' hsf hbs hbf)]
        | true =>
          by_cases hh : cfg.hash se.content = cfg.hash be.content
          · rw [syncAction_skip { cfg with dryRun := true } st₀ f se be hse hsf hb₀ hbf hh,
              syncAction_skip { cfg with dryRun := false } st f se be hse' hsf hbs hbf hh]
          · rw [syncAction_version_dry { cfg with dryRun := true } st₀ f se be hse hsf hb₀ hbf hh rfl,
              syncAction_version { cfg with dryRun := false } st f se be hse' hsf hbs hbf hh rfl hcf]

theorem syncLoop_dry_wet (cfg : Config) :
    ∀ fs st₀ st logs, st.source = st₀.source →
    (∀ g ∈ fs, alookup st.backup g = alookup st₀.backup g) →
    (∀ g ∈ fs, (alookup st₀.source g).isSome = true) →
    fs.Nodup →
    (∀ g, cfg.copyFails g = false) →
    (syncLoop { cfg with dryRun := true } fs st₀ logs).2 =
      (syncLoop { cfg with dryRun := false } fs st logs).2 := by
  intro fs
  induction fs with
  | nil => intro st₀ st logs _ _ _ _ _; rfl
  | cons f fs ih =>
    intro st₀ st logs hsrc hbak hsome hnd hcf
    rcases hd : syncStep { cfg with dryRun := true } st₀ f with ⟨std, lsd, ed⟩
    rcases hw : syncStep { cfg with dryRun := false } st f with ⟨stw, lsw, ew⟩
    have h2 : (lsd, ed) = (lsw, ew) := by
      have h := syncStep_dry_wet cfg st₀ st f hsrc (hbak f (List.mem_cons_self f fs))
        (hsome f (List.mem_cons_self f fs)) (hcf f)
      rw [hd, hw] at h
      exact h
    obtain ⟨hls, he⟩ := Prod.mk.injEq .. ▸ h2
    have hstd : std = st₀ := by
      have h := syncStep_dry_state { cfg with dryRun := true } st₀ f rfl
      rw [hd] at h
      exact h
    rcases List.nodup_cons.mp hnd with ⟨hf, hnd'⟩
    cases ew with
    | some err =>
      simp only [syncLoop, hd, hw]
      rw [hls, he]
    | none =>
      rw [he] at hd
      simp only [syncLoop, hd, hw, hls]
      have hsw := (syncStep_src { cfg with dryRun := false } st f).1
      rw [hw] at hsw
      have hsrc' : stw.source = std.source := by
        rw [hsw, hstd]; exact hsrc
      have hbak' : ∀ g ∈ fs, alookup stw.backup g = alookup std.backup g := by
        intro g hg
        have hgf : g ≠ f := fun hq => hf (hq ▸ hg)
        have hbw := syncStep_backup_ne { cfg with dryRun := false } st f g hgf
        rw [hw] at hbw
        rw [hstd, hbw]
        exact hbak g (List.mem_cons_of_mem f hg)
      have hsome' : ∀ g ∈ fs, (alookup std.source g).isSome = true := by
        intro g hg
        rw [hstd]
        exact hsome g (List.mem_cons_of_mem f hg)
      exact ih std stw (logs ++ lsw) hsrc' hbak' hsome' hnd' hcf

theorem sync_ok_files (cfg : Config) (st st' : FSState) (logs : List String)
    (hs : sync cfg st = (st', logs, none)) :
    ∃ files, get_txt_files st = .ok files := by
  unfold sync at hs
  cases hg : get_txt_files st with
  | error e => rw [hg] at hs; simp at hs
  | ok files => exact ⟨files, rfl⟩

/-! ## Versioning-content invariants along the loop -/

theorem syncLoop_count_zero (cfg : Config) (c : List Nat) :
    ∀ fs st logs, fs.Nodup →
    (∀ g ∈ fs, ∀ sg be, alookup st.source g = some sg → alookup st.backup g = some be →
      cfg.hash sg.content ≠ cfg.hash be.content → be.content ≠ c) →
    contentCount st.versioning c = 0 →
    contentCount (syncLoop cfg fs st logs).1.versioning c = 0 := by
  intro fs
  induction fs with
  | nil => intro st logs _ _ h0; exact h0
  | cons f fs ih =>
    intro st logs hnd hbk h0
    rcases List.nodup_cons.mp hnd with ⟨hf, hnd'⟩
    rcases hstep : syncStep cfg st f with ⟨st1, ls, e⟩
    have hsrc1 : st1.source = st.source := by
      have h := (syncStep_src cfg st f).1
      rw [hstep] at h
      exact h
    have hc1 : contentCount st1.versioning c = 0 := by
      rcases syncStep_versioning_cases cfg st f with hv | ⟨sg, be, hsg, hsgf, hbe, hbf, hdf, hv⟩
      · rw [hstep] at hv
        rw [hv]
        exact h0
      · rw [hstep] at hv
        rw [hv, contentCount_aset]
        have hbc : be.content ≠ c := hbk f (List.mem_cons_self f fs) sg be hsg hbe hdf
        rw [if_neg hbc, Nat.add_zero]
        exact Nat.le_zero.mp (h0 ▸ contentCount_aerase_le st.versioning _ c)
    cases e with
    | some err => simp only [syncLoop, hstep]; exact hc1
    | none =>
      simp only [syncLoop, hstep]
      apply ih st1 (logs ++ ls) hnd' _ hc1
      intro g hg sg be hsg hbe hdf
      have hgf : g ≠ f := fun hq => hf (hq ▸ hg)
      have hbne := syncStep_backup_ne cfg st f g hgf
      rw [hstep] at hbne
      rw [hbne] at hbe
      rw [hsrc1] at hsg
      exact hbk g (List.mem_cons_of_mem f hg) sg be hsg hbe hdf

theorem syncLoop_count_keep (cfg : Config) (c : List Nat) (vn : String) :
    ∀ fs st logs, fs.Nodup →
    (∀ g ∈ fs, ∀ sg be, alookup st.source g = some sg → alookup st.backup g = some be →
      cfg.hash sg.content ≠ cfg.hash be.content →
      vn ≠ versionedName cfg.stamp g ∧ be.content ≠ c) →
    (∀ q ∈ st.versioning, q.2.content = c → q.1 = vn) →
    contentCount st.versioning c = 1 →
    contentCount (syncLoop cfg fs st logs).1.versioning c = 1 := by
  intro fs
  induction fs with
  | nil => intro st logs _ _ _ h1; exact h1
  | cons f fs ih =>
    intro st logs hnd hbk hkey h1
    rcases List.nodup_cons.mp hnd with ⟨hf, hnd'⟩
    rcases hstep : syncStep cfg st f with ⟨st1, ls, e⟩
    have hsrc1 : st1.source = st.source := by
      have h := (syncStep_src cfg st f).1
      rw [hstep] at h
      exact h
    have hmain : contentCount st1.versioning c = 1 ∧
        ∀ q ∈ st1.versioning, q.2.content = c → q.1 = vn := by
      rcases syncStep_versioning_cases cfg st f with hv | ⟨sg, be, hsg, hsgf, hbe, hbf, hdf, hv⟩
      · rw [hstep] at hv
        rw [hv]
        exact ⟨h1, hkey⟩
      · rw [hstep] at hv
        obtain ⟨hkvn, hbc⟩ := hbk f (List.mem_cons_self f fs) sg be hsg hbe hdf
        constructor
        · rw [hv, contentCount_aset, if_neg hbc, Nat.add_zero]
          rw [contentCount_aerase_eq st.versioning _ c]
          · exact h1
          · intro q hq hqc
            rw [hkey q hq hqc]
            exact hkvn
        · intro q hq hqc
          rw [hv] at hq
          rcases List.mem_cons.mp hq with hq1 | hq2
          · rw [hq1] at hqc
            exact absurd hqc hbc
          · exact hkey q (List.mem_of_mem_filter hq2) hqc
    cases e with
    | some err => simp only [syncLoop, hstep]; exact hmain.1
    | none =>
      simp only [syncLoop, hstep]
      apply ih st1 (logs ++ ls) hnd' _ hmain.2 hmain.1
      intro g hg sg be hsg hbe hdf
      have hgf : g ≠ f := fun hq => hf (hq ▸ hg)
      have hbne := syncStep_backup_ne cfg st f g hgf
      rw [hstep] at hbne
      rw [hbne] at hbe
      rw [hsrc1] at hsg
      exact hbk g (List.mem_cons_of_mem f hg) sg be hsg hbe hdf

theorem syncLoop_versioning_lookup (cfg : Config) (x : String) :
    ∀ fs st logs, fs.Nodup →
    (∀ g ∈ fs, ∀ sg be, alookup st.source g = some sg → alookup st.backup g = some be →
      cfg.hash sg.content ≠ cfg.hash be.content → x ≠ versionedName cfg.stamp g) →
    alookup (syncLoop cfg fs st logs).1.versioning x = alookup st.versioning x := by
  intro fs
  induction fs with
  | nil => intro st logs _ _; rfl
  | cons f fs ih =>
    intro st logs hnd hx
    rcases List.nodup_cons.mp hnd with ⟨hf, hnd'⟩
    rcases hstep : syncStep cfg st f with ⟨st1, ls, e⟩
    have hsrc1 : st1.source = st.source := by
      have h := (syncStep_src cfg st f).1
      rw [hstep] at h
      exact h
    have hv1 : alookup st1.versioning x = alookup st.versioning x := by
      rcases syncStep_versioning_cases cfg st f with hv | ⟨sg, be, hsg, hsgf, hbe, hbf, hdf, hv⟩
      · rw [hstep] at hv
        rw [hv]
      · rw [hstep] at hv
        rw [hv]
        exact alookup_aset_ne st.versioning _ x be
          (hx f (List.mem_cons_self f fs) sg be hsg hbe hdf)
    cases e with
    | some err => simp only [syncLoop, hstep]; exact hv1
    | none =>
      simp only [syncLoop, hstep]
      refine (ih st1 (logs ++ ls) hnd' ?_).trans hv1
      intro g hg sg be hsg hbe hdf
      have hgf : g ≠ f := fun hq => hf (hq ▸ hg)
      have hbne := syncStep_backup_ne cfg st f g hgf
      rw [hstep] at hbne
      rw [hbne] at hbe
      rw [hsrc1] at hsg
      exact hx g (List.mem_cons_of_mem f hg) sg be hsg hbe hdf

/-! ## A recency-stale file keeps its backup entry through the whole loop -/

theorem syncLoop_stale_backup (cfg : Config) (f : String) (se : Entry)
    (hsk : recencySkips cfg se) :
    ∀ fs st logs, alookup st.source f = some se →
    alookup (syncLoop cfg fs st logs).1.backup f = alookup st.backup f := by
  intro fs
  induction fs with
  | nil => intro st logs _; rfl
  | cons g fs ih =>
    intro st logs hse
    rcases hstep : syncStep cfg st g with ⟨st1, ls, e⟩
    have hb : alookup st1.backup f = alookup st.backup f := by
      by_cases hgf : f = g
      · subst hgf
        rw [syncStep_recency_skip cfg st f se hse hsk] at hstep
        obtain ⟨h1, -⟩ := Prod.mk.injEq .. ▸ hstep
        rw [← h1]
      · have h := syncStep_backup_ne cfg st g f hgf
        rw [hstep] at h
        exact h
    have hsrc : st1.source = st.source := by
      have h := (syncStep_src cfg st g).1
      rw [hstep] at h
      exact h
    cases e with
    | some err => simp only [syncLoop, hstep]; exact hb
    | none =>
      simp only [syncLoop, hstep]
      rw [ih st1 (logs ++ ls) (by rw [hsrc]; exact hse), hb]

/-! ## The shape of the versioned filename -/

/-- All characters of the string are decimal digits. -/
def allDigits (s : String) : Bool := s.data.all Char.isDigit

theorem digitChar_isDigit {k : Nat} (h : k < 10) : (Nat.digitChar k).isDigit = true := by
  interval_cases k <;> decide

theorem allDigits_pad2 (n : Nat) : allDigits (pad2 n) = true := by
  simp only [allDigits, pad2, List.all_cons, List.all_nil, Bool.and_true]
  rw [digitChar_isDigit (Nat.mod_lt _ (by norm_num)),
    digitChar_isDigit (Nat.mod_lt _ (by norm_num))]
  rfl

theorem allDigits_pad4 (n : Nat) : allDigits (pad4 n) = true := by
  simp only [allDigits, pad4, List.all_cons, List.all_nil, Bool.and_true]
  rw [digitChar_isDigit (Nat.mod_lt _ (by norm_num)),
    digitChar_isDigit (Nat.mod_lt _ (by norm_num)),
    digitChar_isDigit (Nat.mod_lt _ (by norm_num)),
    digitChar_isDigit (Nat.mod_lt _ (by norm_num))]
  rfl

theorem pad2_length (n : Nat) : (pad2 n).length = 2 := rfl

theorem pad4_length (n : Nat) : (pad4 n).length = 4 := rfl

theorem allDigits_append (s t : String) :
    allDigits (s ++ t) = (allDigits s && allDigits t) := by
  simp [allDigits, String.data_append, List.all_append]

/-- The timestamp inserted into a versioned name is an 8-digit date,
a literal `T`, and a 6-digit time. -/
theorem strftime_format (t : Stamp) :
    strftimeYmdTHMS t = (pad4 t.year ++ pad2 t.month ++ pad2 t.day) ++ "T" ++
        (pad2 t.hour ++ pad2 t.minute ++ pad2 t.second) ∧
      (pad4 t.year ++ pad2 t.month ++ pad2 t.day).length = 8 ∧
      allDigits (pad4 t.year ++ pad2 t.month ++ pad2 t.day) = true ∧
      (pad2 t.hour ++ pad2 t.minute ++ pad2 t.second).length = 6 ∧
      allDigits (pad2 t.hour ++ pad2 t.minute ++ pad2 t.second) = true := by
  refine ⟨by simp [strftimeYmdTHMS, String.append_assoc], ?_, ?_, ?_, ?_⟩
  · simp [String.length_append, pad4_length, pad2_length]
  · simp [allDigits_append, allDigits_pad4, allDigits_pad2]
  · simp [String.length_append, pad2_length]
  · simp [allDigits_append, allDigits_pad2]

/-! ## Concrete data used by witnesses and counterexamples -/

/-- A concrete stand-in for the SHA-256 digest function. -/
def demoHash (l : List Nat) : String := String.join (l.map (fun n => Nat.repr n ++ ";"))

/-- A concrete `datetime.now()` stamp. -/
def demoStamp : Stamp := ⟨2023, 10, 1, 12, 34, 56⟩

/-- A concrete fault-free configuration without a recency window. -/
def demoCfg : Config := ⟨false, none, 1000, demoStamp, demoHash, fun _ => false⟩

/-! ## The claims -/

/-- **C2**: for a source path that is an existing regular file,
`should_sync` returns true when the backup path does not exist; when the
backup path exists (as a regular file), it returns true iff the two
digests differ and false iff they match exactly. -/
theorem C2_should_sync_contract (H : List Nat → String) (src bak : Dir) (f : String)
    (se : Entry) (hse : alookup src f = some se) (hsf : se.isFile = true) :
    (alookup bak f = none → should_sync H src bak f = .ok true) ∧
    (∀ be, alookup bak f = some be → be.isFile = true →
      ((should_sync H src bak f = .ok true ↔ H se.content ≠ H be.content) ∧
       (should_sync H src bak f = .ok false ↔ H se.content = H be.content))) := by
  refine ⟨fun hb => should_sync_no_backup H src bak f se hse hsf hb, ?_⟩
  intro be hb hbf
  rw [should_sync_compare H src bak f se be hse hsf hb hbf]
  refine ⟨?_, ?_⟩ <;> simp

/-- **C2** witness: on a one-file source with no backup, `should_sync`
answers true. -/
theorem C2_should_sync_contract_witness :
    should_sync demoHash [("a.txt", ⟨true, [1], 0⟩)] [] "a.txt" = .ok true :=
  (C2_should_sync_contract demoHash [("a.txt", ⟨true, [1], 0⟩)] [] "a.txt"
    ⟨true, [1], 0⟩ rfl rfl).1 rfl

/-- **C9**: every failure escaping `sync` is a `RuntimeError` whose
message begins with `Synchronization failed: `; the underlying exception
reaches the caller only as its message embedded in the wrapped string. -/
theorem C9_error_wrapping (cfg : Config) (st st' : FSState) (logs : List String)
    (e : PyError) (h : sync cfg st = (st', logs, some e)) :
    e.kind = ErrKind.runtimeError ∧
      ∃ rest, e.msg = "Synchronization failed: " ++ rest := by
  cases hg : get_txt_files st with
  | error e0 =>
    unfold sync at h
    rw [hg] at h
    simp only [Prod.mk.injEq, Option.some.injEq] at h
    obtain ⟨-, -, h3⟩ := h
    rw [← h3]
    exact ⟨rfl, e0.msg, rfl⟩
  | ok files =>
    rw [sync_of_loop cfg st hg] at h
    rcases hl : syncLoop cfg files st [] with ⟨st1, lg, e1⟩
    rw [hl] at h
    cases e1 with
    | some e0 =>
      simp only [Option.map_some', Prod.mk.injEq, Option.some.injEq] at h
      obtain ⟨-, -, h3⟩ := h
      rw [← h3]
      exact ⟨rfl, e0.msg, rfl⟩
    | none => simp at h

/-- **C9** witness: a run on a missing source directory fails with the
wrapped message. -/
theorem C9_error_wrapping_witness :
    (wrapSync (runtimeErr "Error reading .txt files from source: Provided source path is not a directory")).kind
        = ErrKind.runtimeError ∧
      ∃ rest, (wrapSync (runtimeErr "Error reading .txt files from source: Provided source path is not a directory")).msg
        = "Synchronization failed: " ++ rest :=
  C9_error_wrapping demoCfg ⟨false, [], [], []⟩ ⟨false, [], [], []⟩ []
    (wrapSync (runtimeErr "Error reading .txt files from source: Provided source path is not a directory")) rfl

/-- **C7**: if the per-file processing of one eligible file raises, the
whole run fails right there: files after it in listing order are not
processed, the state keeps every mutation made for the earlier files, and
nothing is rolled back. -/
theorem C7_abort_on_first_error (cfg : Config) (st st1 st2 : FSState)
    (l₁ l₂ : List String) (f : String) (logs₁ ls : List String) (e : PyError)
    (hfiles : get_txt_files st = .ok (l₁ ++ f :: l₂))
    (h1 : syncLoop cfg l₁ st [] = (st1, logs₁, none))
    (hstep : syncStep cfg st1 f = (st2, ls, some e)) :
    sync cfg st = (st2, logs₁ ++ ls, some (wrapSync e)) := by
  have h2 : syncLoop cfg (l₁ ++ f :: l₂) st [] = (st2, logs₁ ++ ls, some e) := by
    rw [syncLoop_append_ok cfg l₁ (f :: l₂) st st1 [] logs₁ h1]
    simp only [syncLoop, hstep]
  rw [sync_of_loop cfg st hfiles, h2]
  rfl

/-- **C7** witness: with three eligible files and a failing copy on the
second, the first file's backup survives, the third is never processed,
and the whole run fails wrapped. -/
theorem C7_abort_on_first_error_witness :
    sync ⟨false, none, 1000, demoStamp, demoHash, fun s => s == "b.txt"⟩
        ⟨true, [("a.txt", ⟨true, [1], 0⟩), ("b.txt", ⟨true, [2], 0⟩), ("c.txt", ⟨true, [3], 0⟩)], [], []⟩ =
      (⟨true, [("a.txt", ⟨true, [1], 0⟩), ("b.txt", ⟨true, [2], 0⟩), ("c.txt", ⟨true, [3], 0⟩)],
          [("a.txt", ⟨true, [1], 0⟩)], []⟩,
        ["Copying new file: a.txt", "Copying new file: b.txt"],
        some (wrapSync (runtimeErr "Error copying file b.txt to backup"))) :=
  C7_abort_on_first_error ⟨false, none, 1000, demoStamp, demoHash, fun s => s == "b.txt"⟩
    ⟨true, [("a.txt", ⟨true, [1], 0⟩), ("b.txt", ⟨true, [2], 0⟩), ("c.txt", ⟨true, [3], 0⟩)], [], []⟩
    ⟨true, [("a.txt", ⟨true, [1], 0⟩), ("b.txt", ⟨true, [2], 0⟩), ("c.txt", ⟨true, [3], 0⟩)],
      [("a.txt", ⟨true, [1], 0⟩)], []⟩
    ⟨true, [("a.txt", ⟨true, [1], 0⟩), ("b.txt", ⟨true, [2], 0⟩), ("c.txt", ⟨true, [3], 0⟩)],
      [("a.txt", ⟨true, [1], 0⟩)], []⟩
    ["a.txt"] ["c.txt"] "b.txt" ["Copying new file: a.txt"] ["Copying new file: b.txt"]
    (runtimeErr "Error copying file b.txt to backup") rfl rfl rfl

/-- **C8**: the eligible-file listing holds exactly the regular-file
entries of the source directory whose name ends in `.txt`; consequently
a non-`.txt` name's backup entry is never created or touched by `sync`. -/
theorem C8_txt_listing_contract (cfg : Config) (st : FSState) (hd : st.sourceIsDir = true) :
    (∃ L, get_txt_files st = .ok L ∧
      ∀ f, (f ∈ L ↔ ∃ e, (f, e) ∈ st.source ∧ strEndsWith f ".txt" = true ∧ e.isFile = true)) ∧
    (∀ g, strEndsWith g ".txt" = false →
      alookup (sync cfg st).1.backup g = alookup st.backup g) := by
  have hL := txtList_of_isDir hd
  refine ⟨⟨_, hL, fun f => mem_txtList hL f⟩, ?_⟩
  intro g hg
  have hnotin : g ∉ (st.source.filter
      (fun p => strEndsWith p.1 ".txt" && p.2.isFile)).map Prod.fst := by
    intro hmem
    have hsuf := txtList_endsWith hL hmem
    rw [hg] at hsuf
    exact Bool.false_ne_true hsuf
  rw [sync_of_loop cfg st hL]
  exact syncLoop_backup_ne cfg g _ st [] hnotin

/-- **C8** witness: a source with a `.txt` file, a non-`.txt` file and a
`.txt`-named directory lists only the regular `.txt` file, and the
non-`.txt` name never appears in the backup. -/
theorem C8_txt_listing_contract_witness :
    (∃ L, get_txt_files ⟨true, [("a.txt", ⟨true, [1], 0⟩), ("notes.md", ⟨true, [2], 0⟩),
        ("d.txt", ⟨false, [], 0⟩)], [], []⟩ = .ok L ∧
      ∀ f, (f ∈ L ↔ ∃ e, (f, e) ∈ [("a.txt", (⟨true, [1], 0⟩ : Entry)), ("notes.md", ⟨true, [2], 0⟩),
        ("d.txt", ⟨false, [], 0⟩)] ∧ strEndsWith f ".txt" = true ∧ e.isFile = true)) ∧
    (∀ g, strEndsWith g ".txt" = false →
      alookup (sync demoCfg ⟨true, [("a.txt", ⟨true, [1], 0⟩), ("notes.md", ⟨true, [2], 0⟩),
        ("d.txt", ⟨false, [], 0⟩)], [], []⟩).1.backup g =
      alookup ([] : Dir) g) :=
  C8_txt_listing_contract demoCfg ⟨true, [("a.txt", ⟨true, [1], 0⟩), ("notes.md", ⟨true, [2], 0⟩),
    ("d.txt", ⟨false, [], 0⟩)], [], []⟩ rfl

/-- **C10**: the versioning branch moves the old backup into the
versioning directory before copying the source; if that copy fails,
`sync` raises while the backup path holds no entry for the filename,
yet the superseded content is already preserved at the versioned name. -/
theorem C10_version_then_copy_failure (cfg : Config) (st : FSState) (f : String)
    (se be : Entry) (rest : List String)
    (hse : alookup st.source f = some se) (hsf : se.isFile = true)
    (hb : alookup st.backup f = some be) (hbf : be.isFile = true)
    (hdiff : cfg.hash se.content ≠ cfg.hash be.content)
    (hpass : ¬ recencySkips cfg se)
    (hdry : cfg.dryRun = false) (hcf : cfg.copyFails f = true)
    (hfiles : get_txt_files st = .ok (f :: rest)) :
    alookup (syncStep cfg st f).1.backup f = none ∧
    alookup (syncStep cfg st f).1.versioning (versionedName cfg.stamp f) = some be ∧
    sync cfg st = ((syncStep cfg st f).1,
      [versioningMsg f (versionedName cfg.stamp f)],
      some (wrapSync (runtimeErr ("Error during versioning of " ++ f)))) := by
  have hstep : syncStep cfg st f =
      ({ st with backup := aerase st.backup f,
                 versioning := aset st.versioning (versionedName cfg.stamp f) be },
        [versioningMsg f (versionedName cfg.stamp f)],
        some (runtimeErr ("Error during versioning of " ++ f))) := by
    rw [syncStep_recency_pass cfg st f se hse hpass]
    exact syncAction_version_fail cfg st f se be hse hsf hb hbf hdiff hdry hcf
  refine ⟨?_, ?_, ?_⟩
  · rw [hstep]
    exact alookup_aerase_self st.backup f
  · rw [hstep]
    exact alookup_aset_self st.versioning _ be
  · rw [sync_of_loop cfg st hfiles]
    have hl : syncLoop cfg (f :: rest) st [] =
        ((syncStep cfg st f).1, [versioningMsg f (versionedName cfg.stamp f)],
          some (runtimeErr ("Error during versioning of " ++ f))) := by
      simp only [syncLoop, hstep, List.nil_append]
    rw [hl]
    rfl

/-- **C10** witness: a differing pair under a failing copy leaves the
backup path empty, the old content versioned, and `sync` raising. -/
theorem C10_version_then_copy_failure_witness :
    alookup (syncStep ⟨false, none, 1000, demoStamp, demoHash, fun s => s == "a.txt"⟩
        ⟨true, [("a.txt", ⟨true, [1], 999⟩)], [("a.txt", ⟨true, [2], 0⟩)], []⟩ "a.txt").1.backup "a.txt" = none ∧
    alookup (syncStep ⟨false, none, 1000, demoStamp, demoHash, fun s => s == "a.txt"⟩
        ⟨true, [("a.txt", ⟨true, [1], 999⟩)], [("a.txt", ⟨true, [2], 0⟩)], []⟩ "a.txt").1.versioning
        (versionedName demoStamp "a.txt") = some ⟨true, [2], 0⟩ ∧
    sync ⟨false, none, 1000, demoStamp, demoHash, fun s => s == "a.txt"⟩
        ⟨true, [("a.txt", ⟨true, [1], 999⟩)], [("a.txt", ⟨true, [2], 0⟩)], []⟩ =
      ((syncStep ⟨false, none, 1000, demoStamp, demoHash, fun s => s == "a.txt"⟩
          ⟨true, [("a.txt", ⟨true, [1], 999⟩)], [("a.txt", ⟨true, [2], 0⟩)], []⟩ "a.txt").1,
        [versioningMsg "a.txt" (versionedName demoStamp "a.txt")],
        some (wrapSync (runtimeErr ("Error during versioning of " ++ "a.txt")))) :=
  C10_version_then_copy_failure ⟨false, none, 1000, demoStamp, demoHash, fun s => s == "a.txt"⟩
    ⟨true, [("a.txt", ⟨true, [1], 999⟩)], [("a.txt", ⟨true, [2], 0⟩)], []⟩ "a.txt"
    ⟨true, [1], 999⟩ ⟨true, [2], 0⟩ []
    rfl rfl rfl rfl (by decide) (by decide) rfl rfl rfl

/-- **C6** counterexample: an identical source/backup pair whose source
file is outside the recency window is skipped silently — `sync` succeeds
with no log line at all, not the claimed `Skipped (unchanged)` message. -/
theorem C6_counterexample :
    demoHash [1] = demoHash [1] ∧
    sync ⟨false, some 5, 6000, demoStamp, demoHash, fun _ => false⟩
        ⟨true, [("a.txt", ⟨true, [1], 0⟩)], [("a.txt", ⟨true, [1], 100⟩)], []⟩ =
      (⟨true, [("a.txt", ⟨true, [1], 0⟩)], [("a.txt", ⟨true, [1], 100⟩)], []⟩, [], none) ∧
    (sync ⟨false, some 5, 6000, demoStamp, demoHash, fun _ => false⟩
        ⟨true, [("a.txt", ⟨true, [1], 0⟩)], [("a.txt", ⟨true, [1], 100⟩)], []⟩).2.1 ≠
      ["Skipped (unchanged): a.txt"] :=
  ⟨rfl, rfl, by decide⟩

/-- **C6** (amended): a source/backup pair with identical digests that is
not skipped by the recency filter is processed without any filesystem
mutation and with exactly the `Skipped (unchanged)` log line. -/
theorem C6_skip_unchanged_amended (cfg : Config) (st : FSState) (f : String) (se be : Entry)
    (hse : alookup st.source f = some se) (hsf : se.isFile = true)
    (hb : alookup st.backup f = some be) (hbf : be.isFile = true)
    (heq : cfg.hash se.content = cfg.hash be.content)
    (hpass : ¬ recencySkips cfg se) :
    syncStep cfg st f = (st, [skipMsg f], none) := by
  rw [syncStep_recency_pass cfg st f se hse hpass]
  exact syncAction_skip cfg st f se be hse hsf hb hbf heq

/-- **C6** witness: an identical pair with no recency window is skipped
with the exact log line and an unchanged state. -/
theorem C6_skip_unchanged_amended_witness :
    syncStep demoCfg ⟨true, [("a.txt", ⟨true, [1], 0⟩)], [("a.txt", ⟨true, [1], 100⟩)], []⟩ "a.txt" =
      (⟨true, [("a.txt", ⟨true, [1], 0⟩)], [("a.txt", ⟨true, [1], 100⟩)], []⟩,
        [skipMsg "a.txt"], none) :=
  C6_skip_unchanged_amended demoCfg
    ⟨true, [("a.txt", ⟨true, [1], 0⟩)], [("a.txt", ⟨true, [1], 100⟩)], []⟩ "a.txt"
    ⟨true, [1], 0⟩ ⟨true, [1], 100⟩ rfl rfl rfl rfl rfl (by decide)

/-- **C4** counterexample: with a configured window of `0` minutes, a file
ten minutes old (strictly older than the window) is still copied and
logged, because `if self.modified_within:` treats `0` as false and
disables the filter. -/
theorem C4_counterexample :
    (⟨false, some 0, 600, demoStamp, demoHash, fun _ => false⟩ : Config).modifiedWithin = some 0 ∧
    (600 : Int) - 0 > 60 * 0 ∧
    sync ⟨false, some 0, 600, demoStamp, demoHash, fun _ => false⟩
        ⟨true, [("a.txt", ⟨true, [1], 0⟩)], [], []⟩ =
      (⟨true, [("a.txt", ⟨true, [1], 0⟩)], [("a.txt", ⟨true, [1], 0⟩)], []⟩,
        ["Copying new file: a.txt"], none) :=
  ⟨rfl, by decide, rfl⟩

/-- **C4** (amended): for a configured nonzero window `N`, an eligible
file whose modification time is strictly older than `N` minutes is left
entirely untouched: its loop iteration changes nothing and logs nothing,
and its backup entry is unchanged by the whole `sync`. -/
theorem C4_recency_filter_amended (cfg : Config) (st : FSState) (f : String) (se : Entry)
    (N : Int) (hw : cfg.modifiedWithin = some N) (hN : N ≠ 0)
    (hse : alookup st.source f = some se)
    (hold : cfg.now - se.mtime > 60 * N) :
    syncStep cfg st f = (st, [], none) ∧
      alookup (sync cfg st).1.backup f = alookup st.backup f := by
  have hsk : recencySkips cfg se := by
    refine ⟨?_, ?_⟩
    · rw [hw]
      simp [intTruthy, hN]
    · rw [hw]
      simpa using hold
  refine ⟨syncStep_recency_skip cfg st f se hse hsk, ?_⟩
  cases hg : get_txt_files st with
  | error e =>
    unfold sync
    rw [hg]
  | ok files =>
    rw [sync_of_loop cfg st hg]
    exact syncLoop_stale_backup cfg f se hsk files st [] hse

/-- **C4** witness: a 100-minute-old file under a 5-minute window is left
untouched. -/
theorem C4_recency_filter_amended_witness :
    syncStep ⟨false, some 5, 6000, demoStamp, demoHash, fun _ => false⟩
        ⟨true, [("a.txt", ⟨true, [1], 0⟩)], [], []⟩ "a.txt" =
      (⟨true, [("a.txt", ⟨true, [1], 0⟩)], [], []⟩, [], none) ∧
    alookup (sync ⟨false, some 5, 6000, demoStamp, demoHash, fun _ => false⟩
        ⟨true, [("a.txt", ⟨true, [1], 0⟩)], [], []⟩).1.backup "a.txt" =
      alookup ([] : Dir) "a.txt" :=
  C4_recency_filter_amended ⟨false, some 5, 6000, demoStamp, demoHash, fun _ => false⟩
    ⟨true, [("a.txt", ⟨true, [1], 0⟩)], [], []⟩ "a.txt" ⟨true, [1], 0⟩ 5
    rfl (by decide) rfl (by decide)

/-- **C1** counterexample: with a recency window configured, an eligible
file older than the window is silently skipped — the non-dry-run pass
succeeds, yet the backup directory holds no copy of it at all. -/
theorem C1_counterexample :
    (⟨false, some 5, 1000, demoStamp, demoHash, fun _ => false⟩ : Config).dryRun = false ∧
    get_txt_files ⟨true, [("a.txt", ⟨true, [1], 0⟩)], [], []⟩ = .ok ["a.txt"] ∧
    sync ⟨false, some 5, 1000, demoStamp, demoHash, fun _ => false⟩
        ⟨true, [("a.txt", ⟨true, [1], 0⟩)], [], []⟩ =
      (⟨true, [("a.txt", ⟨true, [1], 0⟩)], [], []⟩, [], none) ∧
    alookup (sync ⟨false, some 5, 1000, demoStamp, demoHash, fun _ => false⟩
        ⟨true, [("a.txt", ⟨true, [1], 0⟩)], [], []⟩).1.backup "a.txt" = none :=
  ⟨rfl, rfl, rfl, rfl⟩

/-- **C1** (amended): after a successful non-dry-run pass, every eligible
source file that is not skipped by the recency filter has a byte-identical
copy at its filename in the backup directory (digest equality is read as
content equality via the collision-freeness hypothesis on the files at
hand). -/
theorem C1_backup_identical_amended (cfg : Config) (st st' : FSState)
    (logs : List String) (f : String) (se : Entry)
    (hdry : cfg.dryRun = false)
    (hnd : (st.source.map Prod.fst).Nodup)
    (hs : sync cfg st = (st', logs, none))
    (hse : alookup st.source f = some se)
    (hsuf : strEndsWith f ".txt" = true) (hsf : se.isFile = true)
    (hpass : ¬ recencySkips cfg se)
    (hcoll : ∀ q ∈ st.backup, q.1 = f →
      cfg.hash se.content = cfg.hash q.2.content → se.content = q.2.content) :
    ∃ e', alookup st'.backup f = some e' ∧ e'.content = se.content := by
  obtain ⟨files, hfiles⟩ := sync_ok_files cfg st st' logs hs
  have hloop := sync_ok_loop cfg st st' logs hfiles hs
  have hmem : f ∈ files := (mem_txtList hfiles f).mpr ⟨se, mem_of_alookup hse, hsuf, hsf⟩
  obtain ⟨l₁, l₂, hsplit⟩ := List.append_of_mem hmem
  subst hsplit
  have hndL : (l₁ ++ f :: l₂).Nodup := txtList_nodup hfiles hnd
  have hf1 : f ∉ l₁ := fun hmem1 =>
    (List.nodup_append.mp hndL).2.2 hmem1 (List.mem_cons_self f l₂)
  have hf2 : f ∉ l₂ := (List.nodup_cons.mp (List.nodup_append.mp hndL).2.1).1
  rcases hl1 : syncLoop cfg l₁ st [] with ⟨st1, lg1, e1⟩
  cases e1 with
  | some e0 =>
    rw [syncLoop_append_err cfg l₁ (f :: l₂) st st1 [] lg1 e0 hl1] at hloop
    simp at hloop
  | none =>
    rw [syncLoop_append_ok cfg l₁ (f :: l₂) st st1 [] lg1 hl1] at hloop
    rcases hstep : syncStep cfg st1 f with ⟨st2, ls2, e2⟩
    cases e2 with
    | some e0 =>
      simp only [syncLoop, hstep] at hloop
      simp at hloop
    | none =>
      simp only [syncLoop, hstep] at hloop
      have hsrc1 : st1.source = st.source := by
        have h := (syncLoop_src cfg l₁ st []).1
        rw [hl1] at h
        exact h
      have hb1 : alookup st1.backup f = alookup st.backup f := by
        have h := syncLoop_backup_ne cfg f l₁ st [] hf1
        rw [hl1] at h
        exact h
      have hse1 : alookup st1.source f = some se := by
        rw [hsrc1]
        exact hse
      have hcoll1 : ∀ be, alookup st1.backup f = some be →
          cfg.hash se.content = cfg.hash be.content → se.content = be.content := by
        intro be hbe hh
        rw [hb1] at hbe
        exact hcoll (f, be) (mem_of_alookup hbe) rfl hh
      obtain ⟨e', he', hec⟩ :=
        syncStep_ok_backup cfg st1 st2 f ls2 se hse1 hsf hpass hdry hcoll1 hstep
      have h2 : alookup st'.backup f = alookup st2.backup f := by
        have h := syncLoop_backup_ne cfg f l₂ st2 (lg1 ++ ls2) hf2
        rw [hloop] at h
        exact h
      exact ⟨e', by rw [h2]; exact he', hec⟩

/-- **C1** witness: a fresh file with no backup ends up byte-identical in
the backup directory. -/
theorem C1_backup_identical_amended_witness :
    ∃ e', alookup (sync demoCfg ⟨true, [("a.txt", ⟨true, [1], 0⟩)], [], []⟩).1.backup "a.txt" =
        some e' ∧ e'.content = [1] :=
  C1_backup_identical_amended demoCfg ⟨true, [("a.txt", ⟨true, [1], 0⟩)], [], []⟩
    (sync demoCfg ⟨true, [("a.txt", ⟨true, [1], 0⟩)], [], []⟩).1
    (sync demoCfg ⟨true, [("a.txt", ⟨true, [1], 0⟩)], [], []⟩).2.1
    "a.txt" ⟨true, [1], 0⟩ rfl (by decide) rfl rfl rfl rfl (by decide) (by decide)

/-- **C5**: on any state (with fault-free copies), the dry-run pass emits
exactly the same log sequence and outcome as the real pass, and leaves the
filesystem state — in particular the backup and versioning directories —
byte-for-byte unchanged. -/
theorem C5_dry_run_equivalence (cfg : Config) (st : FSState)
    (hnd : (st.source.map Prod.fst).Nodup)
    (hcf : ∀ g, cfg.copyFails g = false) :
    (sync { cfg with dryRun := true } st).2 = (sync { cfg with dryRun := false } st).2 ∧
    (sync { cfg with dryRun := true } st).1 = st := by
  cases hg : get_txt_files st with
  | error e =>
    constructor
    · unfold sync
      rw [hg]
    · unfold sync
      rw [hg]
  | ok files =>
    have hsome : ∀ g ∈ files, (alookup st.source g).isSome = true := by
      intro g hgm
      obtain ⟨e, he, -, -⟩ := alookup_of_mem_txtList hg hnd hgm
      rw [he]
      rfl
    have hloopEq := syncLoop_dry_wet cfg files st st [] rfl (fun _ _ => rfl) hsome
      (txtList_nodup hg hnd) hcf
    constructor
    · rw [sync_of_loop { cfg with dryRun := true } st hg,
        sync_of_loop { cfg with dryRun := false } st hg]
      show (_, Option.map wrapSync _) = (_, Option.map wrapSync _)
      rw [hloopEq]
    · rw [sync_of_loop { cfg with dryRun := true } st hg]
      exact syncLoop_dry_state { cfg with dryRun := true } rfl files st []

/-- **C5** witness: on a state where the real run would version a file,
dry-run and real run produce the same narrative and the dry-run state is
untouched. -/
theorem C5_dry_run_equivalence_witness :
    (sync { demoCfg with dryRun := true }
        ⟨true, [("a.txt", ⟨true, [1], 999⟩)], [("a.txt", ⟨true, [2], 0⟩)], []⟩).2 =
      (sync { demoCfg with dryRun := false }
        ⟨true, [("a.txt", ⟨true, [1], 999⟩)], [("a.txt", ⟨true, [2], 0⟩)], []⟩).2 ∧
    (sync { demoCfg with dryRun := true }
        ⟨true, [("a.txt", ⟨true, [1], 999⟩)], [("a.txt", ⟨true, [2], 0⟩)], []⟩).1 =
      ⟨true, [("a.txt", ⟨true, [1], 999⟩)], [("a.txt", ⟨true, [2], 0⟩)], []⟩ :=
  C5_dry_run_equivalence demoCfg
    ⟨true, [("a.txt", ⟨true, [1], 999⟩)], [("a.txt", ⟨true, [2], 0⟩)], []⟩
    (by decide) (fun g => rfl)

/-- **C3**: for an eligible file whose backup exists with a differing
digest, after a successful non-dry-run `sync` the old backup content sits
byte-for-byte at the versioned name — the unique versioning entry holding
that content, given that it held it nowhere before and that no *other*
source/backup pair that gets versioned in the same pass (same filename in
both directories, digests differing) supersedes a backup with those bytes
or produces this same versioned name — the versioned name inserts an
8-digit date, `T`, 6-digit time stamp between stem and extension, the old
backup is gone from the backup path, and the backup path now matches the
source's digest.  Pairs with matching digests are skipped, never
versioned, and need no proviso. -/
theorem C3_versioning_contract (cfg : Config) (st st' : FSState)
    (logs : List String) (f : String) (se be : Entry)
    (hdry : cfg.dryRun = false)
    (hnd : (st.source.map Prod.fst).Nodup)
    (hs : sync cfg st = (st', logs, none))
    (hse : alookup st.source f = some se)
    (hsuf : strEndsWith f ".txt" = true) (hsf : se.isFile = true)
    (hb : alookup st.backup f = some be) (hbf : be.isFile = true)
    (hdiff : cfg.hash se.content ≠ cfg.hash be.content)
    (hpass : ¬ recencySkips cfg se)
    (hfresh : contentCount st.versioning be.content = 0)
    (hother : ∀ p ∈ st.source, ∀ q ∈ st.backup, p.1 = q.1 → q.1 ≠ f →
      cfg.hash p.2.content ≠ cfg.hash q.2.content → q.2.content ≠ be.content)
    (hvn : ∀ p ∈ st.source, ∀ q ∈ st.backup, p.1 = q.1 → q.1 ≠ f →
      cfg.hash p.2.content ≠ cfg.hash q.2.content →
      versionedName cfg.stamp p.1 ≠ versionedName cfg.stamp f) :
    alookup st'.versioning (versionedName cfg.stamp f) = some be ∧
    contentCount st'.versioning be.content = 1 ∧
    (∃ e', alookup st'.backup f = some e' ∧
      cfg.hash e'.content = cfg.hash se.content ∧ e'.content ≠ be.content) ∧
    (∃ ds ts, versionedName cfg.stamp f =
        splitextStem f ++ "_" ++ ds ++ "T" ++ ts ++ ".txt" ∧
      ds.length = 8 ∧ allDigits ds = true ∧ ts.length = 6 ∧ allDigits ts = true) := by
  obtain ⟨files, hfiles⟩ := sync_ok_files cfg st st' logs hs
  have hloop := sync_ok_loop cfg st st' logs hfiles hs
  have hmem : f ∈ files := (mem_txtList hfiles f).mpr ⟨se, mem_of_alookup hse, hsuf, hsf⟩
  obtain ⟨l₁, l₂, hsplit⟩ := List.append_of_mem hmem
  subst hsplit
  have hndL := txtList_nodup hfiles hnd
  obtain ⟨hnd1, hndc, hdisj⟩ := List.nodup_append.mp hndL
  have hf1 : f ∉ l₁ := fun hmem1 => hdisj hmem1 (List.mem_cons_self f l₂)
  obtain ⟨hf2, hnd2⟩ := List.nodup_cons.mp hndc
  rcases hl1 : syncLoop cfg l₁ st [] with ⟨st1, lg1, e1⟩
  cases e1 with
  | some e0 =>
    rw [syncLoop_append_err cfg l₁ (f :: l₂) st st1 [] lg1 e0 hl1] at hloop
    simp at hloop
  | none =>
    rw [syncLoop_append_ok cfg l₁ (f :: l₂) st st1 [] lg1 hl1] at hloop
    rcases hstep : syncStep cfg st1 f with ⟨st2, ls2, e2⟩
    cases e2 with
    | some e0 =>
      simp only [syncLoop, hstep] at hloop
      simp at hloop
    | none =>
      simp only [syncLoop, hstep] at hloop
      have hsrc1 : st1.source = st.source := by
        have h := (syncLoop_src cfg l₁ st []).1
        rw [hl1] at h
        exact h
      have hb1 : alookup st1.backup f = some be := by
        have h := syncLoop_backup_ne cfg f l₁ st [] hf1
        rw [hl1] at h
        rw [h]
        exact hb
      have hse1 : alookup st1.source f = some se := by
        rw [hsrc1]
        exact hse
      have hbk1 : ∀ g ∈ l₁, ∀ sg b', alookup st.source g = some sg →
          alookup st.backup g = some b' →
          cfg.hash sg.content ≠ cfg.hash b'.content → b'.content ≠ be.content := by
        intro g hg sg b' hsg hb' hdf
        have hgf : g ≠ f := fun hq => hf1 (hq ▸ hg)
        exact hother (g, sg) (mem_of_alookup hsg) (g, b') (mem_of_alookup hb') rfl hgf hdf
      have hcount1 : contentCount st1.versioning be.content = 0 := by
        have h := syncLoop_count_zero cfg be.content l₁ st [] hnd1 hbk1 hfresh
        rw [hl1] at h
        exact h
      have hcff : cfg.copyFails f = false := by
        cases hcff : cfg.copyFails f with
        | false => rfl
        | true =>
          rw [syncStep_recency_pass cfg st1 f se hse1 hpass,
            syncAction_version_fail cfg st1 f se be hse1 hsf hb1 hbf hdiff hdry hcff] at hstep
          simp at hstep
      rw [syncStep_recency_pass cfg st1 f se hse1 hpass,
        syncAction_version cfg st1 f se be hse1 hsf hb1 hbf hdiff hdry hcff] at hstep
      simp only [Prod.mk.injEq, and_true] at hstep
      obtain ⟨hst2, hls2⟩ := hstep
      have hv2 : alookup st2.versioning (versionedName cfg.stamp f) = some be := by
        rw [← hst2]
        exact alookup_aset_self st1.versioning _ be
      have hb2 : alookup st2.backup f = some se := by
        rw [← hst2]
        exact alookup_aset_self (aerase st1.backup f) f se
      have hcount2 : contentCount st2.versioning be.content = 1 := by
        rw [← hst2]
        show contentCount (aset st1.versioning (versionedName cfg.stamp f) be) be.content = 1
        rw [contentCount_aset, if_pos rfl]
        have h0 : contentCount (aerase st1.versioning (versionedName cfg.stamp f)) be.content = 0 :=
          Nat.le_zero.mp (hcount1 ▸ contentCount_aerase_le st1.versioning _ be.content)
        omega
      have hkey2 : ∀ q ∈ st2.versioning, q.2.content = be.content →
          q.1 = versionedName cfg.stamp f := by
        intro q hq hqc
        rw [← hst2] at hq
        have hq' : q ∈ (versionedName cfg.stamp f, be) ::
            aerase st1.versioning (versionedName cfg.stamp f) := hq
        rcases List.mem_cons.mp hq' with h1 | h2
        · rw [h1]
        · exact absurd hqc (contentCount_eq_zero.mp hcount1 q (List.mem_of_mem_filter h2))
      have hsrc2 : st2.source = st.source := by
        rw [← hst2]
        show st1.source = st.source
        exact hsrc1
      have hbk2 : ∀ g ∈ l₂, ∀ sg b', alookup st2.source g = some sg →
          alookup st2.backup g = some b' →
          cfg.hash sg.content ≠ cfg.hash b'.content →
          versionedName cfg.stamp f ≠ versionedName cfg.stamp g ∧
            b'.content ≠ be.content := by
        intro g hg sg b' hsg hb' hdf
        have hgf : g ≠ f := fun hq => hf2 (hq ▸ hg)
        have hg1 : g ∉ l₁ := fun hq => hdisj hq (List.mem_cons_of_mem f hg)
        rw [hsrc2] at hsg
        have hb2g : alookup st2.backup g = alookup st1.backup g := by
          rw [← hst2]
          show alookup (aset (aerase st1.backup f) f se) g = alookup st1.backup g
          rw [alookup_aset_ne _ f g se hgf, alookup_aerase_ne _ f g hgf]
        rw [hb2g] at hb'
        have h := syncLoop_backup_ne cfg g l₁ st [] hg1
        rw [hl1] at h
        rw [h] at hb'
        exact ⟨(hvn (g, sg) (mem_of_alookup hsg) (g, b') (mem_of_alookup hb') rfl hgf hdf).symm,
          hother (g, sg) (mem_of_alookup hsg) (g, b') (mem_of_alookup hb') rfl hgf hdf⟩
      refine ⟨?_, ?_, ?_, ?_⟩
      · have h := syncLoop_versioning_lookup cfg (versionedName cfg.stamp f) l₂ st2
          (lg1 ++ ls2) hnd2 (fun g hg sg b' hsg hb' hdf => (hbk2 g hg sg b' hsg hb' hdf).1)
        rw [hloop] at h
        rw [h]
        exact hv2
      · have h := syncLoop_count_keep cfg be.content (versionedName cfg.stamp f) l₂ st2
          (lg1 ++ ls2) hnd2 hbk2 hkey2 hcount2
        rw [hloop] at h
        exact h
      · have h := syncLoop_backup_ne cfg f l₂ st2 (lg1 ++ ls2) hf2
        rw [hloop] at h
        refine ⟨se, by rw [h]; exact hb2, rfl, fun hc => hdiff (by rw [hc])⟩
      · refine ⟨pad4 cfg.stamp.year ++ pad2 cfg.stamp.month ++ pad2 cfg.stamp.day,
          pad2 cfg.stamp.hour ++ pad2 cfg.stamp.minute ++ pad2 cfg.stamp.second,
          ?_, (strftime_format cfg.stamp).2.1, (strftime_format cfg.stamp).2.2.1,
          (strftime_format cfg.stamp).2.2.2.1, (strftime_format cfg.stamp).2.2.2.2⟩
        unfold versionedName
        rw [(strftime_format cfg.stamp).1]
        simp [String.append_assoc]

/-- **C3** counterexample: when the versioning directory already holds a
file with the same bytes as the superseded backup, the pass still
succeeds but the old content is afterwards recoverable from two
versioning files, not exactly one. -/
theorem C3_counterexample :
    (sync demoCfg ⟨true, [("a.txt", ⟨true, [1], 0⟩)], [("a.txt", ⟨true, [2], 5⟩)],
        [("old.txt", ⟨true, [2], 7⟩)]⟩).2.2 = none ∧
    contentCount (sync demoCfg ⟨true, [("a.txt", ⟨true, [1], 0⟩)], [("a.txt", ⟨true, [2], 5⟩)],
        [("old.txt", ⟨true, [2], 7⟩)]⟩).1.versioning [2] = 2 :=
  ⟨rfl, rfl⟩

/-- **C3** witness: a differing pair on a fresh state versions the old
backup once and refreshes the backup. -/
theorem C3_versioning_contract_witness :
    alookup (sync demoCfg
        ⟨true, [("a.txt", ⟨true, [1], 0⟩)], [("a.txt", ⟨true, [2], 5⟩)], []⟩).1.versioning
        (versionedName demoCfg.stamp "a.txt") = some ⟨true, [2], 5⟩ ∧
    contentCount (sync demoCfg
        ⟨true, [("a.txt", ⟨true, [1], 0⟩)], [("a.txt", ⟨true, [2], 5⟩)], []⟩).1.versioning [2] = 1 ∧
    (∃ e', alookup (sync demoCfg
        ⟨true, [("a.txt", ⟨true, [1], 0⟩)], [("a.txt", ⟨true, [2], 5⟩)], []⟩).1.backup "a.txt" = some e' ∧
      demoCfg.hash e'.content = demoCfg.hash [1] ∧ e'.content ≠ [2]) ∧
    (∃ ds ts, versionedName demoCfg.stamp "a.txt" =
        splitextStem "a.txt" ++ "_" ++ ds ++ "T" ++ ts ++ ".txt" ∧
      ds.length = 8 ∧ allDigits ds = true ∧ ts.length = 6 ∧ allDigits ts = true) :=
  C3_versioning_contract demoCfg
    ⟨true, [("a.txt", ⟨true, [1], 0⟩)], [("a.txt", ⟨true, [2], 5⟩)], []⟩
    (sync demoCfg ⟨true, [("a.txt", ⟨true, [1], 0⟩)], [("a.txt", ⟨true, [2], 5⟩)], []⟩).1
    (sync demoCfg ⟨true, [("a.txt", ⟨true, [1], 0⟩)], [("a.txt", ⟨true, [2], 5⟩)], []⟩).2.1
    "a.txt" ⟨true, [1], 0⟩ ⟨true, [2], 5⟩
    rfl (by decide) rfl rfl rfl rfl rfl rfl (by decide) (by decide) rfl (by decide) (by decide)

end FileSync
